import Mathlib

/-!
Verification of the `mkpatch` THOR-archive generator
(`src/mkpatch/src/main.rs`) against its specification.

Modelling choices:
* Filesystem paths (Rust `Path`/`PathBuf` and the manifest's POSIX-style
  `relative_path` strings) are modelled as their lists of `/`-separated
  segments (`List String`).
* The filesystem is a finite tree.  A symbolic link is modelled as an
  unresolvable node: the tool's directory walk runs with
  `follow_links(false)`, so a link is never a regular file during
  traversal; a link occurring as an entry's direct target behaves here
  like a broken link (neither file nor directory) — no claim depends on
  a link that resolves.
* File contents are byte lists (`List Nat`).
-/

mutual

/-- A node of the modelled filesystem: a regular file with its byte
contents, a symbolic link, or a directory with named children. -/
inductive FsNode where
  | file (contents : List Nat) : FsNode
  | symlink : FsNode
  | dir (children : FsTree) : FsNode

/-- The ordered child list of a directory (the order models the readdir
order seen by the walker). -/
inductive FsTree where
  | nil : FsTree
  | cons (name : String) (node : FsNode) (rest : FsTree) : FsTree

end

/-- Find the child of a directory by name (first match). -/
def FsTree.find : FsTree → String → Option FsNode
  | FsTree.nil, _ => none
  | FsTree.cons n c rest, name => if n = name then some c else FsTree.find rest name

/-- The child names of a directory, in order. -/
def FsTree.names : FsTree → List String
  | FsTree.nil => []
  | FsTree.cons n _ rest => n :: FsTree.names rest

/-- Follow a (already normalized) segment path down the tree.  Only
directories can be traversed: a symbolic link in the middle of a path
stops the lookup (see the modelling note above). -/
def FsNode.lookup : FsNode → List String → Option FsNode
  | node, [] => some node
  | FsNode.dir children, seg :: rest =>
    match FsTree.find children seg with
    | some child => FsNode.lookup child rest
    | none => none
  | FsNode.file _, _ :: _ => none
  | FsNode.symlink, _ :: _ => none

/-- Lexically normalize a segment path the way the operating system
resolves it against the filesystem root: `..` pops one segment (and the
path is invalid if it pops past the root), `.` and empty segments are
skipped.  The first argument is the reversed stack of segments resolved
so far. -/
def normalizeSegs : List String → List String → Option (List String)
  | acc, [] => some acc.reverse
  | acc, seg :: rest =>
    if seg = ".." then
      match acc with
      | [] => none
      | _ :: acc2 => normalizeSegs acc2 rest
    else if seg = "." || seg = "" then
      normalizeSegs acc rest
    else
      normalizeSegs (seg :: acc) rest

/-- `stat`: resolve a possibly non-normal path against the filesystem
root and return the node it denotes, if any.  This models Rust's
`Path::is_file` / `Path::is_dir` checks, which consult the OS and hence
resolve `..` segments. -/
def stat (root : FsNode) (p : List String) : Option FsNode :=
  match normalizeSegs [] p with
  | none => none
  | some q => FsNode.lookup root q

mutual

/-- The recursive directory walk of `append_directory_update`
(`walkdir::WalkDir` with `follow_links(false)`): every regular file at
or beneath the node, as `(full segment path, contents)` pairs, children
in readdir order, a directory before its contents.  Symbolic links are
never followed and never yielded as files. -/
def walkFiles (p : List String) : FsNode → List (List String × List Nat)
  | FsNode.file cs => [(p, cs)]
  | FsNode.symlink => []
  | FsNode.dir children => walkTree p children

/-- Walk of a directory's child list, in order. -/
def walkTree (p : List String) : FsTree → List (List String × List Nat)
  | FsTree.nil => []
  | FsTree.cons n c rest => walkFiles (p ++ [n]) c ++ walkTree p rest

end

/-- Boolean list membership for segment names. -/
def memB (x : String) : List String → Bool
  | [] => false
  | y :: ys => if x = y then true else memB x ys

/-- Boolean no-duplicates check for name lists. -/
def nodupB : List String → Bool
  | [] => true
  | x :: xs => !(memB x xs) && nodupB xs

mutual

/-- Well-formedness of a filesystem node: every directory's child names
are distinct (as on a real filesystem). -/
def FsNode.wfB : FsNode → Bool
  | FsNode.file _ => true
  | FsNode.symlink => true
  | FsNode.dir children => nodupB (FsTree.names children) && FsTree.wfB children

/-- Well-formedness of every node in a child list. -/
def FsTree.wfB : FsTree → Bool
  | FsTree.nil => true
  | FsTree.cons _ c rest => FsNode.wfB c && FsTree.wfB rest

end

/-- A manifest entry (`PatchEntryV1` of the patch-definition module):
`relative_path` is the entry's POSIX relative path, modelled as its list
of `/`-separated segments. -/
structure PatchEntry where
  relative_path : List String
  is_removed : Bool
deriving Repr, DecidableEq

/-- The parsed patch definition (`PatchDefinition` of the
patch-definition module). -/
structure PatchDefinition where
  use_grf_merging : Bool
  target_grf_name : Option String
  include_checksums : Bool
  entries : List PatchEntry
deriving Repr, DecidableEq

/-- One encoder call made by the orchestrator:
`append_file_update(path, contents)` or `append_file_removal(path)`. -/
inductive FileOperation where
  | update (relative_path : List String) (contents : List Nat) : FileOperation
  | removal (relative_path : List String) : FileOperation
deriving Repr, DecidableEq

/-- The recorded relative path of an operation. -/
def FileOperation.relPath : FileOperation → List String
  | FileOperation.update p _ => p
  | FileOperation.removal p => p

/-- Errors surfaced by `generate_patch_from_definition`.
`definitionError` is the spec's `DefinitionError` (merge mode without a
target container name, reported by the archive builder); `invalidPath`
is the spec's `ResolutionError::InvalidPath`, carrying the offending
native path (the `anyhow` message in the source). -/
inductive GenError where
  | definitionError : GenError
  | invalidPath (native_path : List String) : GenError
deriving Repr, DecidableEq

/-- Modelled from the spec: `gruf::thor::ThorArchiveBuilder::new` is
code of this repository that is not under `src/`.  Per §4.2,
`begin(sink, options)` "fails if ... `merge_mode` is set without a
target container name", and §3 requires the target name to be present
and non-empty when merging.  Returns `true` when the builder opens
successfully. -/
def thorBuilderNew (use_grf_merging : Bool) (target_grf_name : Option String) : Bool :=
  !use_grf_merging ||
    (match target_grf_name with
     | none => false
     | some n => !(n = ""))

/-- The per-entry resolution performed by the loop body of
`generate_patch_from_definition`: a removed entry yields one removal
without touching the filesystem; otherwise the path is joined to the
data directory and checked — a regular file yields one update with the
entry's own relative path, a directory yields the walked updates with
the data-directory prefix stripped, anything else is the fatal
invalid-path error (`main.rs` lines 137-158). -/
def resolveEntry (root : FsNode) (dataDir : List String) (e : PatchEntry) :
    Except GenError (List FileOperation) :=
  if e.is_removed then
    Except.ok [FileOperation.removal e.relative_path]
  else
    match stat root (dataDir ++ e.relative_path) with
    | some (FsNode.file cs) => Except.ok [FileOperation.update e.relative_path cs]
    | some (FsNode.dir children) =>
      Except.ok ((walkTree (dataDir ++ e.relative_path) children).map
        (fun pc => FileOperation.update (pc.1.drop dataDir.length) pc.2))
    | _ => Except.error (GenError.invalidPath (dataDir ++ e.relative_path))

/-- `append_directory_update` (`main.rs` lines 163-184): walk the
directory, and for each regular file append one update whose path is
the file's path with the data-directory prefix stripped.  The
accumulator models the builder's mutable call sequence. -/
def append_directory_update (acc : List FileOperation) (dataDir : List String)
    (native : List String) (children : FsTree) : List FileOperation :=
  (walkTree native children).foldl
    (fun a pc => a ++ [FileOperation.update (pc.1.drop dataDir.length) pc.2]) acc

/-- The entry loop of `generate_patch_from_definition` (`main.rs` lines
137-159), with the builder's call sequence threaded as an accumulator:
returns the operations appended so far and the error, if any, that
aborted the loop. -/
def generateEntries (root : FsNode) (dataDir : List String) :
    List FileOperation → List PatchEntry → List FileOperation × Option GenError
  | acc, [] => (acc, none)
  | acc, e :: rest =>
    if e.is_removed then
      generateEntries root dataDir (acc ++ [FileOperation.removal e.relative_path]) rest
    else
      match stat root (dataDir ++ e.relative_path) with
      | some (FsNode.file cs) =>
        generateEntries root dataDir (acc ++ [FileOperation.update e.relative_path cs]) rest
      | some (FsNode.dir children) =>
        generateEntries root dataDir
          (append_directory_update acc dataDir (dataDir ++ e.relative_path) children) rest
      | _ => (acc, some (GenError.invalidPath (dataDir ++ e.relative_path)))

/-- The concatenation, over entries in manifest order, of each entry's
resolved operations, stopping at the first failing entry. -/
def resolveAll (root : FsNode) (dataDir : List String) :
    List PatchEntry → List FileOperation × Option GenError
  | [] => ([], none)
  | e :: rest =>
    match resolveEntry root dataDir e with
    | Except.error err => ([], some err)
    | Except.ok ops =>
      let r := resolveAll root dataDir rest
      (ops ++ r.1, r.2)

/-- Observable trace of one run of `generate_patch_from_definition`:
whether `File::create(output_path)` ran (creating the output file), the
arguments passed to `ThorArchiveBuilder::new`, the sequence of encoder
calls, and the error, if any. -/
structure RunTrace where
  outputCreated : Bool
  builderArgs : Bool × Option String × Bool
  ops : List FileOperation
  error : Option GenError
deriving Repr, DecidableEq

/-- `generate_patch_from_definition` (`main.rs` lines 121-161):
`File::create(output_path)` runs first (it succeeds in this model — the
output location is writable), then the builder is opened with the
definition's options, then the entry loop runs. -/
def generate_patch_from_definition (root : FsNode) (d : PatchDefinition)
    (dataDir : List String) : RunTrace :=
  if thorBuilderNew d.use_grf_merging d.target_grf_name then
    let r := generateEntries root dataDir [] d.entries
    { outputCreated := true
      builderArgs := (d.use_grf_merging, d.target_grf_name, d.include_checksums)
      ops := r.1
      error := r.2 }
  else
    { outputCreated := true
      builderArgs := (d.use_grf_merging, d.target_grf_name, d.include_checksums)
      ops := []
      error := some GenError.definitionError }

/-- Observable outcome of `main`'s result handling (`main.rs` lines
58-67): whether the success message was printed, whether the failure
was reported through the error logger, and the process exit status. -/
structure MainOutcome where
  successMessage : Bool
  errorReported : Bool
  exitCode : Nat
deriving Repr, DecidableEq

/-- The tail of `main`: on `Err(e)` it logs
"Failed to generate patch from definition: {e}" and falls through; on
`Ok(())` it prints the success message.  `main` returns `()` either
way, so the process exits with status 0. -/
def mainRun (root : FsNode) (d : PatchDefinition) (dataDir : List String) : MainOutcome :=
  let t := generate_patch_from_definition root d dataDir
  match t.error with
  | some _ => { successMessage := false, errorReported := true, exitCode := 0 }
  | none => { successMessage := true, errorReported := false, exitCode := 0 }

/-- Split a file name at its last dot: `some (stem, ext)` when a dot
exists, `none` otherwise.  Recursing first finds the LAST dot. -/
def splitLastDot : List Char → Option (List Char × List Char)
  | [] => none
  | c :: rest =>
    match splitLastDot rest with
    | some (pre, post) => some (c :: pre, post)
    | none => if c = '.' then some ([], rest) else none

/-- Rust's `Path::file_stem` / `Path::extension` rules on a plain file
name: no embedded dot, or a name that begins with its only dot, has no
extension; otherwise the extension is the portion after the last dot. -/
def rustFileStemExt (name : String) : String × Option String :=
  match splitLastDot name.toList with
  | none => (name, none)
  | some ([], _) => (name, none)
  | some (pre, post) => (String.mk pre, some (String.mk post))

/-- `with_extension("thor")` on a file name: the stem with `.thor`
appended. -/
def replaceExtWithThor (name : String) : String :=
  (rustFileStemExt name).1 ++ ".thor"

/-- The default output path computed by `main` (`main.rs` lines 49-57)
when `--output` is absent:
`patch_definition_file.with_extension("thor").file_name()` — the last
path segment with its extension replaced, every directory component
dropped (`none` models the `expect` panic when there is no file
name). -/
def defaultOutputPath (patch_definition_file : List String) : Option String :=
  match patch_definition_file.getLast? with
  | none => none
  | some name =>
    if name = "" || name = "." || name = ".." then none
    else some (replaceExtWithThor name)

/-- Bytes of a string (for the modelled serialization). -/
def strBytes (s : String) : List Nat :=
  s.toList.map Char.toNat

/-- Bytes of a segment path, `/`-joined and zero-terminated. -/
def pathBytes (p : List String) : List Nat :=
  (p.map strBytes).foldr (fun b acc => b ++ [47] ++ acc) [0]

/-- Bytes of one archive operation. -/
def opBytes : FileOperation → List Nat
  | FileOperation.update p cs => [1] ++ pathBytes p ++ [cs.length] ++ cs
  | FileOperation.removal p => [2] ++ pathBytes p

/-- Modelled from the spec: the archive's binary serialization lives in
the external `gruf::thor` encoder (code of this repository not under
`src/`).  Per §4.2 it is a deterministic function of the session options
and the ordered operation sequence (header with flag bits and optional
target name, then payloads, then the table of contents); this model
fixes one such deterministic layout. -/
def encodeArchive (args : Bool × Option String × Bool) (ops : List FileOperation) : List Nat :=
  [84, 104, 111, 114] ++
    (if args.1 then [1] else [0]) ++
    (match args.2.1 with
     | none => [0]
     | some n => [1, n.length] ++ strBytes n) ++
    (if args.2.2 then [1] else [0]) ++
    (ops.map opBytes).flatten ++
    [ops.length]

/-- Concrete filesystem used by witnesses and counterexamples: a root
holding a data directory (with the file `a.txt` and the subdirectory
`sub` containing `b.txt` and a symbolic link `ln`) and, outside the
data directory, the file `secret.txt`. -/
def sampleRoot : FsNode :=
  FsNode.dir
    (FsTree.cons "data"
      (FsNode.dir
        (FsTree.cons "a.txt" (FsNode.file [104, 101, 108, 108, 111])
          (FsTree.cons "sub"
            (FsNode.dir
              (FsTree.cons "b.txt" (FsNode.file [98])
                (FsTree.cons "ln" FsNode.symlink FsTree.nil)))
            FsTree.nil)))
      (FsTree.cons "secret.txt" (FsNode.file [115]) FsTree.nil))

/-- The subtree of `sampleRoot` at `data/sub`. -/
def sampleSub : FsTree :=
  FsTree.cons "b.txt" (FsNode.file [98]) (FsTree.cons "ln" FsNode.symlink FsTree.nil)

/-- A definition that enables GRF merging with an empty target name. -/
def mergeNoTargetDef : PatchDefinition :=
  { use_grf_merging := true
    target_grf_name := some ""
    include_checksums := false
    entries := [] }

/-- A definition whose single entry points at a path that exists
nowhere under the data directory. -/
def failingDef : PatchDefinition :=
  { use_grf_merging := false
    target_grf_name := none
    include_checksums := false
    entries := [{ relative_path := ["missing.txt"], is_removed := false }] }

/-- A definition that resolves successfully against `sampleRoot`: one
file update followed by one removal. -/
def goodDef : PatchDefinition :=
  { use_grf_merging := false
    target_grf_name := none
    include_checksums := true
    entries :=
      [{ relative_path := ["a.txt"], is_removed := false },
       { relative_path := ["old.txt"], is_removed := true }] }

/-
Helper lemmas.
-/

theorem memB_eq_true_iff (x : String) (l : List String) : memB x l = true ↔ x ∈ l := by
  induction l with
  | nil => simp [memB]
  | cons y ys ih =>
    by_cases h : x = y
    · simp [memB, h]
    · simp [memB, h, ih]

theorem nodupB_cons_iff (x : String) (xs : List String) :
    nodupB (x :: xs) = true ↔ memB x xs = false ∧ nodupB xs = true := by
  simp [nodupB, Bool.and_eq_true, Bool.not_eq_true']

theorem FsTree.find_some_mem :
    ∀ (t : FsTree) (n : String) (c : FsNode),
      FsTree.find t n = some c → n ∈ FsTree.names t
  | FsTree.nil, n, c, h => by simp [FsTree.find] at h
  | FsTree.cons m node rest, n, c, h => by
    by_cases hm : m = n
    · simp [FsTree.names, hm]
    · have h2 : FsTree.find rest n = some c := by
        simpa [FsTree.find, hm] using h
      simpa [FsTree.names] using Or.inr (FsTree.find_some_mem rest n c h2)

mutual

theorem walkFiles_mem :
    ∀ (node : FsNode) (base q : List String) (cs : List Nat),
      FsNode.wfB node = true →
      ((q, cs) ∈ walkFiles base node ↔
        ∃ d, q = base ++ d ∧ FsNode.lookup node d = some (FsNode.file cs))
  | FsNode.file cs0, base, q, cs, _ => by
    constructor
    · intro hmem
      have h1 : q = base ∧ cs = cs0 := by simpa [walkFiles, Prod.ext_iff] using hmem
      refine ⟨[], by simp [h1.1], ?_⟩
      simp [FsNode.lookup, h1.2]
    · rintro ⟨d, hq, hl⟩
      cases d with
      | nil =>
        have h2 : cs0 = cs := by simpa [FsNode.lookup] using hl
        simp [walkFiles, Prod.ext_iff, hq, h2]
      | cons s ds => simp [FsNode.lookup] at hl
  | FsNode.symlink, base, q, cs, _ => by
    simp only [walkFiles, List.not_mem_nil, false_iff]
    rintro ⟨d, hq, hl⟩
    cases d with
    | nil => simp [FsNode.lookup] at hl
    | cons s ds => simp [FsNode.lookup] at hl
  | FsNode.dir children, base, q, cs, h => by
    have h1 : nodupB (FsTree.names children) = true := by
      have := h
      simp [FsNode.wfB, Bool.and_eq_true] at this
      exact this.1
    have h2 : FsTree.wfB children = true := by
      have := h
      simp [FsNode.wfB, Bool.and_eq_true] at this
      exact this.2
    have hw : walkFiles base (FsNode.dir children) = walkTree base children := by
      simp [walkFiles]
    rw [hw, walkTree_mem children base q cs h1 h2]
    constructor
    · rintro ⟨n, child, d, hfind, hq, hl⟩
      exact ⟨n :: d, hq, by simp [FsNode.lookup, hfind, hl]⟩
    · rintro ⟨d, hq, hl⟩
      cases d with
      | nil => simp [FsNode.lookup] at hl
      | cons n d2 =>
        cases hfind : FsTree.find children n with
        | none => simp [FsNode.lookup, hfind] at hl
        | some child =>
          refine ⟨n, child, d2, hfind, hq, ?_⟩
          simpa [FsNode.lookup, hfind] using hl

theorem walkTree_mem :
    ∀ (t : FsTree) (base q : List String) (cs : List Nat),
      nodupB (FsTree.names t) = true → FsTree.wfB t = true →
      ((q, cs) ∈ walkTree base t ↔
        ∃ n child d, FsTree.find t n = some child ∧ q = base ++ n :: d ∧
          FsNode.lookup child d = some (FsNode.file cs))
  | FsTree.nil, base, q, cs, _, _ => by
    simp only [walkTree, List.not_mem_nil, false_iff]
    rintro ⟨n, child, d, hfind, _, _⟩
    simp [FsTree.find] at hfind
  | FsTree.cons n c rest, base, q, cs, hnd, hwf => by
    have hnames : nodupB (n :: FsTree.names rest) = true := by
      simpa [FsTree.names] using hnd
    have hnmem : memB n (FsTree.names rest) = false := ((nodupB_cons_iff _ _).mp hnames).1
    have hndrest : nodupB (FsTree.names rest) = true := ((nodupB_cons_iff _ _).mp hnames).2
    have hcwf : FsNode.wfB c = true := by
      have := hwf
      simp [FsTree.wfB, Bool.and_eq_true] at this
      exact this.1
    have hrwf : FsTree.wfB rest = true := by
      have := hwf
      simp [FsTree.wfB, Bool.and_eq_true] at this
      exact this.2
    have hnnotin : n ∉ FsTree.names rest := by
      intro hc
      rw [← memB_eq_true_iff] at hc
      rw [hc] at hnmem
      exact Bool.true_eq_false.mp hnmem
    have hsplit : walkTree base (FsTree.cons n c rest) =
        walkFiles (base ++ [n]) c ++ walkTree base rest := by
      simp [walkTree]
    rw [hsplit]
    rw [List.mem_append]
    rw [walkFiles_mem c (base ++ [n]) q cs hcwf]
    rw [walkTree_mem rest base q cs hndrest hrwf]
    constructor
    · rintro (⟨d, hq, hl⟩ | ⟨m, child, d, hfind, hq, hl⟩)
      · refine ⟨n, c, d, by simp [FsTree.find], ?_, hl⟩
        simpa [List.append_assoc] using hq
      · have hmn : n ≠ m := by
          intro he
          exact hnnotin (he ▸ FsTree.find_some_mem rest m child hfind)
        exact ⟨m, child, d, by simp [FsTree.find, hmn, hfind], hq, hl⟩
    · rintro ⟨m, child, d, hfind, hq, hl⟩
      by_cases hmn : n = m
      · subst hmn
        have hc : c = child := by simpa [FsTree.find] using hfind
        subst hc
        exact Or.inl ⟨d, by simpa [List.append_assoc] using hq, hl⟩
      · have hfind2 : FsTree.find rest m = some child := by
          simpa [FsTree.find, hmn] using hfind
        exact Or.inr ⟨m, child, d, hfind2, hq, hl⟩

end

mutual

theorem walkFiles_nodup :
    ∀ (node : FsNode) (base : List String), FsNode.wfB node = true →
      ((walkFiles base node).map Prod.fst).Nodup
  | FsNode.file cs0, base, _ => by simp [walkFiles]
  | FsNode.symlink, base, _ => by simp [walkFiles]
  | FsNode.dir children, base, h => by
    have h1 : nodupB (FsTree.names children) = true := by
      have := h
      simp [FsNode.wfB, Bool.and_eq_true] at this
      exact this.1
    have h2 : FsTree.wfB children = true := by
      have := h
      simp [FsNode.wfB, Bool.and_eq_true] at this
      exact this.2
    have hw : walkFiles base (FsNode.dir children) = walkTree base children := by
      simp [walkFiles]
    rw [hw]
    exact walkTree_nodup children base h1 h2

theorem walkTree_nodup :
    ∀ (t : FsTree) (base : List String),
      nodupB (FsTree.names t) = true → FsTree.wfB t = true →
      ((walkTree base t).map Prod.fst).Nodup
  | FsTree.nil, base, _, _ => by simp [walkTree]
  | FsTree.cons n c rest, base, hnd, hwf => by
    have hnames : nodupB (n :: FsTree.names rest) = true := by
      simpa [FsTree.names] using hnd
    have hnmem : memB n (FsTree.names rest) = false := ((nodupB_cons_iff _ _).mp hnames).1
    have hndrest : nodupB (FsTree.names rest) = true := ((nodupB_cons_iff _ _).mp hnames).2
    have hcwf : FsNode.wfB c = true := by
      have := hwf
      simp [FsTree.wfB, Bool.and_eq_true] at this
      exact this.1
    have hrwf : FsTree.wfB rest = true := by
      have := hwf
      simp [FsTree.wfB, Bool.and_eq_true] at this
      exact this.2
    have hnnotin : n ∉ FsTree.names rest := by
      intro hc
      rw [← memB_eq_true_iff] at hc
      rw [hc] at hnmem
      exact Bool.true_eq_false.mp hnmem
    have hsplit : walkTree base (FsTree.cons n c rest) =
        walkFiles (base ++ [n]) c ++ walkTree base rest := by
      simp [walkTree]
    rw [hsplit, List.map_append]
    refine List.Nodup.append (walkFiles_nodup c (base ++ [n]) hcwf)
      (walkTree_nodup rest base hndrest hrwf) ?_
    intro q hql hqr
    obtain ⟨⟨p1, cs1⟩, hp1, hfst1⟩ := List.mem_map.mp hql
    obtain ⟨⟨p2, cs2⟩, hp2, hfst2⟩ := List.mem_map.mp hqr
    obtain ⟨d1, hq1, _⟩ := (walkFiles_mem c (base ++ [n]) p1 cs1 hcwf).mp hp1
    obtain ⟨m, child, d2, hfind, hq2, _⟩ :=
      (walkTree_mem rest base p2 cs2 hndrest hrwf).mp hp2
    have hmmem : m ∈ FsTree.names rest := FsTree.find_some_mem rest m child hfind
    have heq : base ++ n :: d1 = base ++ m :: d2 := by
      have hp12 : p1 = p2 := hfst1.trans hfst2.symm
      rw [hq1, hq2, List.append_assoc] at hp12
      simpa using hp12
    have : n :: d1 = m :: d2 := by
      exact List.append_cancel_left heq
    have hnm : n = m := (List.cons.injEq _ _ _ _).mp this |>.1
    exact hnnotin (hnm ▸ hmmem)

end

theorem foldl_push_eq_map {α β : Type} (f : α → β) :
    ∀ (l : List α) (acc : List β),
      l.foldl (fun a x => a ++ [f x]) acc = acc ++ l.map f
  | [], acc => by simp
  | x :: xs, acc => by
    simp only [List.foldl_cons, List.map_cons]
    rw [foldl_push_eq_map f xs (acc ++ [f x])]
    simp

theorem append_directory_update_eq (acc : List FileOperation) (dataDir : List String)
    (native : List String) (children : FsTree) :
    append_directory_update acc dataDir native children =
      acc ++ (walkTree native children).map
        (fun pc => FileOperation.update (pc.1.drop dataDir.length) pc.2) := by
  unfold append_directory_update
  exact foldl_push_eq_map _ _ acc

theorem generateEntries_eq_resolveAll (root : FsNode) (dataDir : List String) :
    ∀ (es : List PatchEntry) (acc : List FileOperation),
      generateEntries root dataDir acc es =
        (acc ++ (resolveAll root dataDir es).1, (resolveAll root dataDir es).2)
  | [], acc => by simp [generateEntries, resolveAll]
  | e :: rest, acc => by
    cases hrem : e.is_removed with
    | true =>
      simp only [generateEntries, resolveAll, resolveEntry, hrem, if_true]
      rw [generateEntries_eq_resolveAll root dataDir rest]
      simp
    | false =>
      cases hstat : stat root (dataDir ++ e.relative_path) with
      | none =>
        simp [generateEntries, resolveAll, resolveEntry, hrem, hstat]
      | some node =>
        cases node with
        | file cs =>
          simp only [generateEntries, resolveAll, resolveEntry, hrem, if_false, hstat,
            Bool.false_eq_true]
          rw [generateEntries_eq_resolveAll root dataDir rest]
          simp
        | symlink =>
          simp [generateEntries, resolveAll, resolveEntry, hrem, hstat]
        | dir children =>
          simp only [generateEntries, resolveAll, resolveEntry, hrem, if_false, hstat,
            Bool.false_eq_true]
          rw [append_directory_update_eq, generateEntries_eq_resolveAll root dataDir rest]
          simp

theorem resolveAll_success (root : FsNode) (dataDir : List String) :
    ∀ es : List PatchEntry, (resolveAll root dataDir es).2 = none →
      ∃ opss : List (List FileOperation),
        List.Forall₂ (fun e ops => resolveEntry root dataDir e = Except.ok ops) es opss ∧
        (resolveAll root dataDir es).1 = opss.flatten
  | [], _ => ⟨[], List.Forall₂.nil, by simp [resolveAll]⟩
  | e :: rest, h => by
    cases hre : resolveEntry root dataDir e with
    | error err => simp [resolveAll, hre] at h
    | ok ops =>
      have h2 : (resolveAll root dataDir rest).2 = none := by
        simpa [resolveAll, hre] using h
      obtain ⟨opss, hf, hflat⟩ := resolveAll_success root dataDir rest h2
      exact ⟨ops :: opss, List.Forall₂.cons hre hf, by simp [resolveAll, hre, hflat]⟩

theorem drop_data_dir (dataDir rel d : List String) :
    ((dataDir ++ rel) ++ d).drop dataDir.length = rel ++ d := by
  rw [List.append_assoc, List.drop_left]

/-
Claim theorems.
-/

/-- Claim C1, counterexample: with `use_grf_merging = true` and an empty
`target_grf_name`, generation does fail with the definition error, but
the output file has already been created when the error surfaces — the
claim's "before any output file is created: nothing is written to disk"
is false, because `File::create(output_path)` runs before
`ThorArchiveBuilder::new` validates the options. -/
theorem c1_counterexample :
    (generate_patch_from_definition sampleRoot mergeNoTargetDef ["data"]).error =
      some GenError.definitionError ∧
    (generate_patch_from_definition sampleRoot mergeNoTargetDef ["data"]).outputCreated = true :=
  ⟨rfl, rfl⟩

/-- Claim C1 (amended): if the definition has `use_grf_merging` set with
an empty or missing `target_grf_name`, archive generation fails with the
definition error and no update or removal is ever appended, but the
output file is created (and truncated) before the error is surfaced,
because `File::create` precedes the builder's option validation. -/
theorem c1_merge_without_target_fails_after_create (root : FsNode) (dataDir : List String)
    (d : PatchDefinition) (hm : d.use_grf_merging = true)
    (hn : d.target_grf_name = none ∨ d.target_grf_name = some "") :
    generate_patch_from_definition root d dataDir =
      { outputCreated := true
        builderArgs := (d.use_grf_merging, d.target_grf_name, d.include_checksums)
        ops := []
        error := some GenError.definitionError } := by
  have hb : thorBuilderNew d.use_grf_merging d.target_grf_name = false := by
    rcases hn with h | h <;> simp [thorBuilderNew, hm, h]
  simp [generate_patch_from_definition, hb]

/-- Witness for the amended C1 at a concrete merging definition with an
empty target name. -/
theorem c1_witness :
    mergeNoTargetDef.use_grf_merging = true ∧
    mergeNoTargetDef.target_grf_name = some "" ∧
    generate_patch_from_definition sampleRoot mergeNoTargetDef ["data"] =
      { outputCreated := true
        builderArgs := (mergeNoTargetDef.use_grf_merging, mergeNoTargetDef.target_grf_name,
          mergeNoTargetDef.include_checksums)
        ops := []
        error := some GenError.definitionError } :=
  ⟨rfl, rfl,
    c1_merge_without_target_fails_after_create sampleRoot ["data"] mergeNoTargetDef rfl
      (Or.inr rfl)⟩

/-- Claim C2, counterexample: the non-removed entry `../secret.txt`
contains a parent-traversal segment, yet resolution does not reject it:
against `sampleRoot` with data directory `data` it resolves to the file
`secret.txt` that lies outside the data directory and yields an update
for it. -/
theorem c2_counterexample :
    ({ relative_path := ["..", "secret.txt"], is_removed := false } : PatchEntry).is_removed
        = false ∧
    ".." ∈ ({ relative_path := ["..", "secret.txt"], is_removed := false } : PatchEntry).relative_path ∧
    resolveEntry sampleRoot ["data"]
        { relative_path := ["..", "secret.txt"], is_removed := false } =
      Except.ok [FileOperation.update ["..", "secret.txt"] [115]] :=
  ⟨rfl, List.mem_cons_self _ _, rfl⟩

/-- Claim C2 (amended): the Resolver performs no traversal validation: a
non-removed entry whose relative path contains a parent-traversal
segment is joined to the data directory and resolved like any other
path, so when the resolved target is a regular file — possibly outside
the data directory — the entry yields an update instead of being
rejected. -/
theorem c2_no_traversal_validation (root : FsNode) (dataDir : List String)
    (e : PatchEntry) (cs : List Nat) (hrem : e.is_removed = false)
    (_hdots : ".." ∈ e.relative_path)
    (hstat : stat root (dataDir ++ e.relative_path) = some (FsNode.file cs)) :
    resolveEntry root dataDir e = Except.ok [FileOperation.update e.relative_path cs] := by
  simp [resolveEntry, hrem, hstat]

/-- Witness for the amended C2 at the escaping entry. -/
theorem c2_witness :
    ".." ∈ ({ relative_path := ["..", "secret.txt"], is_removed := false } : PatchEntry).relative_path ∧
    stat sampleRoot (["data"] ++ ["..", "secret.txt"]) = some (FsNode.file [115]) ∧
    resolveEntry sampleRoot ["data"]
        { relative_path := ["..", "secret.txt"], is_removed := false } =
      Except.ok [FileOperation.update ["..", "secret.txt"] [115]] :=
  ⟨List.mem_cons_self _ _, rfl,
    c2_no_traversal_validation sampleRoot ["data"]
      { relative_path := ["..", "secret.txt"], is_removed := false } [115] rfl
      (List.mem_cons_self _ _) rfl⟩

/-- Claim C4: a non-removed entry whose joined path does not resolve to
a regular file or a directory (it is missing, or it is a node that is
neither, such as a broken symbolic link) fails with the invalid-path
resolution error carrying the offending path, and the failure is fatal:
the entry loop stops at that entry, appends nothing for it, and
processes no further entries — the result is the same for every
remainder of the entry list. -/
theorem c4_invalid_path_fatal (root : FsNode) (dataDir : List String) (e : PatchEntry)
    (hrem : e.is_removed = false)
    (hstat : stat root (dataDir ++ e.relative_path) = none ∨
      stat root (dataDir ++ e.relative_path) = some FsNode.symlink) :
    resolveEntry root dataDir e =
      Except.error (GenError.invalidPath (dataDir ++ e.relative_path)) ∧
    ∀ (acc : List FileOperation) (rest : List PatchEntry),
      generateEntries root dataDir acc (e :: rest) =
        (acc, some (GenError.invalidPath (dataDir ++ e.relative_path))) := by
  rcases hstat with h | h
  · exact ⟨by simp [resolveEntry, hrem, h],
      fun acc rest => by simp [generateEntries, hrem, h]⟩
  · exact ⟨by simp [resolveEntry, hrem, h],
      fun acc rest => by simp [generateEntries, hrem, h]⟩

/-- Witness for C4 at the symbolic link `data/sub/ln` of `sampleRoot`
(the spec's "broken symlink" example). -/
theorem c4_witness :
    stat sampleRoot (["data"] ++ ["sub", "ln"]) = some FsNode.symlink ∧
    resolveEntry sampleRoot ["data"] { relative_path := ["sub", "ln"], is_removed := false } =
      Except.error (GenError.invalidPath (["data"] ++ ["sub", "ln"])) ∧
    generateEntries sampleRoot ["data"] []
        [{ relative_path := ["sub", "ln"], is_removed := false },
         { relative_path := ["a.txt"], is_removed := false }] =
      ([], some (GenError.invalidPath (["data"] ++ ["sub", "ln"]))) := by
  have h := c4_invalid_path_fatal sampleRoot ["data"]
    { relative_path := ["sub", "ln"], is_removed := false } rfl (Or.inr rfl)
  exact ⟨rfl, h.1, h.2 [] [{ relative_path := ["a.txt"], is_removed := false }]⟩

/-- Claim C5: a removed entry resolves to exactly one removal operation
for its relative path; resolution performs no filesystem access (the
result is the same for every filesystem and data directory); and the
entry succeeds on its own, recording exactly one removal descriptor,
even when no corresponding file exists on disk. -/
theorem c5_removal_no_fs_access (root : FsNode) (dataDir : List String) (e : PatchEntry)
    (h : e.is_removed = true) :
    resolveEntry root dataDir e = Except.ok [FileOperation.removal e.relative_path] ∧
    (∀ (root2 : FsNode) (dataDir2 : List String),
      resolveEntry root2 dataDir2 e = resolveEntry root dataDir e) ∧
    (∀ root2 : FsNode,
      resolveAll root2 dataDir [e] = ([FileOperation.removal e.relative_path], none)) :=
  ⟨by simp [resolveEntry, h],
   fun root2 dataDir2 => by simp [resolveEntry, h],
   fun root2 => by simp [resolveAll, resolveEntry, h]⟩

/-- Witness for C5: the removal entry `old.txt` has no corresponding
file anywhere under `sampleRoot`, yet resolves to one removal. -/
theorem c5_witness :
    ({ relative_path := ["old.txt"], is_removed := true } : PatchEntry).is_removed = true ∧
    resolveEntry sampleRoot ["data"] { relative_path := ["old.txt"], is_removed := true } =
      Except.ok [FileOperation.removal ["old.txt"]] ∧
    resolveAll sampleRoot ["data"] [{ relative_path := ["old.txt"], is_removed := true }] =
      ([FileOperation.removal ["old.txt"]], none) := by
  have h := c5_removal_no_fs_access sampleRoot ["data"]
    { relative_path := ["old.txt"], is_removed := true } rfl
  exact ⟨rfl, h.1, h.2.2 sampleRoot⟩

/-- Claim C6: on a successful run, the sequence of encoder calls equals
the concatenation, over entries in manifest order, of each entry's
resolved operations in the order they are yielded (directory-expanded
updates interleaved in traversal order inside their entry's block); no
operation is reordered. -/
theorem c6_encoder_calls_in_resolver_order (root : FsNode) (dataDir : List String)
    (d : PatchDefinition)
    (h : (generate_patch_from_definition root d dataDir).error = none) :
    ∃ opss : List (List FileOperation),
      List.Forall₂ (fun e ops => resolveEntry root dataDir e = Except.ok ops)
        d.entries opss ∧
      (generate_patch_from_definition root d dataDir).ops = opss.flatten := by
  cases hb : thorBuilderNew d.use_grf_merging d.target_grf_name with
  | false => simp [generate_patch_from_definition, hb] at h
  | true =>
    have hgen := generateEntries_eq_resolveAll root dataDir d.entries []
    have herr : (resolveAll root dataDir d.entries).2 = none := by
      simpa [generate_patch_from_definition, hb, hgen] using h
    obtain ⟨opss, hf, hflat⟩ := resolveAll_success root dataDir d.entries herr
    refine ⟨opss, hf, ?_⟩
    simp [generate_patch_from_definition, hb, hgen, hflat]

/-- Witness for C6 at a successful concrete run (one file update, then
one removal). -/
theorem c6_witness :
    (generate_patch_from_definition sampleRoot goodDef ["data"]).error = none ∧
    ∃ opss : List (List FileOperation),
      List.Forall₂ (fun e ops => resolveEntry sampleRoot ["data"] e = Except.ok ops)
        goodDef.entries opss ∧
      (generate_patch_from_definition sampleRoot goodDef ["data"]).ops = opss.flatten :=
  ⟨rfl, c6_encoder_calls_in_resolver_order sampleRoot ["data"] goodDef rfl⟩

/-- Claim C7, counterexample: a failing run (entry path that exists
nowhere) produces no success message and reports the error, but the
process exits with status 0 — the claim's "exits non-zero" is false:
`main` only logs the error and returns normally. -/
theorem c7_counterexample :
    (generate_patch_from_definition sampleRoot failingDef ["data"]).error =
      some (GenError.invalidPath (["data"] ++ ["missing.txt"])) ∧
    mainRun sampleRoot failingDef ["data"] =
      { successMessage := false, errorReported := true, exitCode := 0 } :=
  ⟨rfl, rfl⟩

/-- Claim C7 (amended): on every generation failure, no success message
is produced and the specific cause is reported through the error logger
(the error value, carrying the offending path, is not swallowed) — but
the process exits with status 0, not non-zero. -/
theorem c7_failure_reported_but_exit_zero (root : FsNode) (d : PatchDefinition)
    (dataDir : List String) (err : GenError)
    (h : (generate_patch_from_definition root d dataDir).error = some err) :
    mainRun root d dataDir =
      { successMessage := false, errorReported := true, exitCode := 0 } := by
  simp [mainRun, h]

/-- Witness for the amended C7 at the concrete failing run. -/
theorem c7_witness :
    (generate_patch_from_definition sampleRoot failingDef ["data"]).error =
      some (GenError.invalidPath (["data"] ++ ["missing.txt"])) ∧
    mainRun sampleRoot failingDef ["data"] =
      { successMessage := false, errorReported := true, exitCode := 0 } :=
  ⟨rfl, c7_failure_reported_but_exit_zero sampleRoot failingDef ["data"]
    (GenError.invalidPath (["data"] ++ ["missing.txt"])) rfl⟩

/-- Claim C8: the generator is deterministic — two runs on an unchanged
definition and an unchanged data directory produce the same run trace
(same encoder-call sequence, same result) and byte-identical serialized
archives. -/
theorem c8_deterministic (root1 root2 : FsNode) (d1 d2 : PatchDefinition)
    (dataDir1 dataDir2 : List String)
    (hr : root1 = root2) (hd : d1 = d2) (hdd : dataDir1 = dataDir2) :
    generate_patch_from_definition root1 d1 dataDir1 =
      generate_patch_from_definition root2 d2 dataDir2 ∧
    encodeArchive (generate_patch_from_definition root1 d1 dataDir1).builderArgs
        (generate_patch_from_definition root1 d1 dataDir1).ops =
      encodeArchive (generate_patch_from_definition root2 d2 dataDir2).builderArgs
        (generate_patch_from_definition root2 d2 dataDir2).ops := by
  subst hr
  subst hd
  subst hdd
  exact ⟨rfl, rfl⟩

/-- Witness for C8 at a concrete repeated run. -/
theorem c8_witness :
    generate_patch_from_definition sampleRoot goodDef ["data"] =
      generate_patch_from_definition sampleRoot goodDef ["data"] ∧
    encodeArchive (generate_patch_from_definition sampleRoot goodDef ["data"]).builderArgs
        (generate_patch_from_definition sampleRoot goodDef ["data"]).ops =
      encodeArchive (generate_patch_from_definition sampleRoot goodDef ["data"]).builderArgs
        (generate_patch_from_definition sampleRoot goodDef ["data"]).ops :=
  c8_deterministic sampleRoot sampleRoot goodDef goodDef ["data"] ["data"] rfl rfl rfl

/-- Claim C10, counterexample: a definition with an empty entries
sequence whose options violate the merge invariant (merging enabled,
no target name) does not generate successfully — so generation does not
succeed for every definition with empty entries. -/
theorem c10_counterexample :
    ({ use_grf_merging := true, target_grf_name := none, include_checksums := false,
        entries := [] } : PatchDefinition).entries = [] ∧
    (generate_patch_from_definition sampleRoot
        { use_grf_merging := true, target_grf_name := none, include_checksums := false,
          entries := [] } ["data"]).error = some GenError.definitionError :=
  ⟨rfl, rfl⟩

/-- Claim C10 (amended): for every definition with an empty entries
sequence whose options pass the builder's validation (merging disabled,
or a non-empty target name), generation succeeds: the output file is
created, the builder session is opened with options taken one-to-one
from the definition, no update or removal is appended, and the run
returns success. -/
theorem c10_empty_entries_succeed (root : FsNode) (dataDir : List String)
    (d : PatchDefinition) (he : d.entries = [])
    (hb : thorBuilderNew d.use_grf_merging d.target_grf_name = true) :
    generate_patch_from_definition root d dataDir =
      { outputCreated := true
        builderArgs := (d.use_grf_merging, d.target_grf_name, d.include_checksums)
        ops := []
        error := none } := by
  simp [generate_patch_from_definition, hb, he, generateEntries]

/-- Witness for the amended C10 at a concrete empty definition. -/
theorem c10_witness :
    ({ use_grf_merging := false, target_grf_name := none, include_checksums := true,
        entries := [] } : PatchDefinition).entries = [] ∧
    thorBuilderNew false none = true ∧
    generate_patch_from_definition sampleRoot
        { use_grf_merging := false, target_grf_name := none, include_checksums := true,
          entries := [] } ["data"] =
      { outputCreated := true
        builderArgs := (false, none, true)
        ops := []
        error := none } :=
  ⟨rfl, rfl,
    c10_empty_entries_succeed sampleRoot ["data"]
      { use_grf_merging := false, target_grf_name := none, include_checksums := true,
        entries := [] } rfl rfl⟩

/-- Claim C3: for a directory-expansion entry, the appended operations
are all updates; the set of appended relative paths equals the set of
regular files found beneath that directory (symbolic links not
followed) with the data-directory prefix stripped; and no path is
appended twice from the same entry. -/
theorem c3_directory_expansion_roundtrip (root : FsNode) (dataDir : List String)
    (e : PatchEntry) (children : FsTree) (hrem : e.is_removed = false)
    (hstat : stat root (dataDir ++ e.relative_path) = some (FsNode.dir children))
    (hwf : FsNode.wfB (FsNode.dir children) = true) :
    ∃ ops, resolveEntry root dataDir e = Except.ok ops ∧
      (∀ op ∈ ops, ∃ q cs, op = FileOperation.update q cs) ∧
      (∀ q : List String, (∃ cs, FileOperation.update q cs ∈ ops) ↔
        (∃ d cs, q = e.relative_path ++ d ∧
          FsNode.lookup (FsNode.dir children) d = some (FsNode.file cs))) ∧
      (ops.map FileOperation.relPath).Nodup := by
  have hbridge : walkTree (dataDir ++ e.relative_path) children =
      walkFiles (dataDir ++ e.relative_path) (FsNode.dir children) := by
    simp [walkFiles]
  refine ⟨(walkTree (dataDir ++ e.relative_path) children).map
      (fun pc => FileOperation.update (pc.1.drop dataDir.length) pc.2),
    by simp [resolveEntry, hrem, hstat], ?_, ?_, ?_⟩
  · intro op hop
    obtain ⟨pc, _, hpc⟩ := List.mem_map.mp hop
    exact ⟨_, _, hpc.symm⟩
  · intro q
    constructor
    · rintro ⟨cs, hmem⟩
      obtain ⟨⟨p, cs2⟩, hpwalk, hfe⟩ := List.mem_map.mp hmem
      have hq : p.drop dataDir.length = q :=
        ((FileOperation.update.injEq _ _ _ _).mp hfe).1
      have hcs : cs2 = cs := ((FileOperation.update.injEq _ _ _ _).mp hfe).2
      rw [hbridge] at hpwalk
      obtain ⟨d, hp, hl⟩ :=
        (walkFiles_mem (FsNode.dir children) (dataDir ++ e.relative_path) p cs2 hwf).mp hpwalk
      refine ⟨d, cs, ?_, ?_⟩
      · rw [← hq, hp, drop_data_dir]
      · rw [← hcs]
        exact hl
    · rintro ⟨d, cs, hq, hl⟩
      refine ⟨cs, ?_⟩
      have hmem : ((dataDir ++ e.relative_path) ++ d, cs) ∈
          walkFiles (dataDir ++ e.relative_path) (FsNode.dir children) :=
        (walkFiles_mem (FsNode.dir children) (dataDir ++ e.relative_path)
          ((dataDir ++ e.relative_path) ++ d) cs hwf).mpr ⟨d, rfl, hl⟩
      rw [← hbridge] at hmem
      have heq : FileOperation.update q cs =
          FileOperation.update (((dataDir ++ e.relative_path) ++ d).drop dataDir.length) cs := by
        rw [drop_data_dir, hq]
      rw [heq]
      exact List.mem_map.mpr ⟨((dataDir ++ e.relative_path) ++ d, cs), hmem, rfl⟩
  · have hnodup := walkFiles_nodup (FsNode.dir children) (dataDir ++ e.relative_path) hwf
    rw [← hbridge] at hnodup
    rw [List.map_map]
    have hfun : (FileOperation.relPath ∘ fun pc : List String × List Nat =>
        FileOperation.update (pc.1.drop dataDir.length) pc.2) =
        (fun pc : List String × List Nat => pc.1.drop dataDir.length) := rfl
    rw [hfun]
    have hmm : (walkTree (dataDir ++ e.relative_path) children).map
        (fun pc : List String × List Nat => pc.1.drop dataDir.length) =
        ((walkTree (dataDir ++ e.relative_path) children).map Prod.fst).map
          (fun p : List String => p.drop dataDir.length) := by
      rw [List.map_map]
      rfl
    rw [hmm]
    refine List.Nodup.map_on ?_ hnodup
    intro x hx y hy hxy
    obtain ⟨⟨p1, cs1⟩, hp1, he1⟩ := List.mem_map.mp hx
    obtain ⟨⟨p2, cs2⟩, hp2, he2⟩ := List.mem_map.mp hy
    rw [hbridge] at hp1 hp2
    obtain ⟨d1, hd1, _⟩ :=
      (walkFiles_mem (FsNode.dir children) (dataDir ++ e.relative_path) p1 cs1 hwf).mp hp1
    obtain ⟨d2, hd2, _⟩ :=
      (walkFiles_mem (FsNode.dir children) (dataDir ++ e.relative_path) p2 cs2 hwf).mp hp2
    have hx1 : x = p1 := he1.symm
    have hy2 : y = p2 := he2.symm
    subst hx1
    subst hy2
    rw [hd1, hd2, drop_data_dir, drop_data_dir] at hxy
    rw [hd1, hd2, List.append_cancel_left hxy]

/-- Witness for C3 at the concrete directory entry `sub` of
`sampleRoot`'s data directory (containing a file and a symbolic
link). -/
theorem c3_witness :
    stat sampleRoot (["data"] ++ ["sub"]) = some (FsNode.dir sampleSub) ∧
    FsNode.wfB (FsNode.dir sampleSub) = true ∧
    (∃ ops, resolveEntry sampleRoot ["data"]
          { relative_path := ["sub"], is_removed := false } = Except.ok ops ∧
      (∀ op ∈ ops, ∃ q cs, op = FileOperation.update q cs) ∧
      (∀ q : List String, (∃ cs, FileOperation.update q cs ∈ ops) ↔
        (∃ d cs, q = ["sub"] ++ d ∧
          FsNode.lookup (FsNode.dir sampleSub) d = some (FsNode.file cs))) ∧
      (ops.map FileOperation.relPath).Nodup) :=
  ⟨rfl, rfl,
    c3_directory_expansion_roundtrip sampleRoot ["data"]
      { relative_path := ["sub"], is_removed := false } sampleSub rfl rfl rfl⟩

/-- Claim C9: when no explicit output path is supplied, the archive
path is the patch-definition file's base name with its extension
replaced by `.thor`: the directory components of the definition path
are dropped (the result is the same as for the bare file name, hence a
file in the current working directory). -/
theorem c9_default_output_name (dirs : List String) (name : String)
    (h1 : name ≠ "") (h2 : name ≠ ".") (h3 : name ≠ "..") :
    defaultOutputPath (dirs ++ [name]) = some ((rustFileStemExt name).1 ++ ".thor") ∧
    defaultOutputPath (dirs ++ [name]) = defaultOutputPath [name] := by
  have hl : (dirs ++ [name]).getLast? = some name := List.getLast?_concat _
  constructor
  · simp [defaultOutputPath, hl, h1, h2, h3, replaceExtWithThor]
  · simp [defaultOutputPath, hl, h1, h2, h3]

/-- Witness for C9 at `defs/mypatch.yml`, whose default output is
`mypatch.thor`. -/
theorem c9_witness :
    ("mypatch.yml" ≠ "" ∧ "mypatch.yml" ≠ "." ∧ "mypatch.yml" ≠ "..") ∧
    defaultOutputPath (["defs"] ++ ["mypatch.yml"]) =
      some ((rustFileStemExt "mypatch.yml").1 ++ ".thor") ∧
    defaultOutputPath (["defs"] ++ ["mypatch.yml"]) = defaultOutputPath ["mypatch.yml"] := by
  have h := c9_default_output_name ["defs"] "mypatch.yml"
    (by decide) (by decide) (by decide)
  exact ⟨⟨by decide, by decide, by decide⟩, h.1, h.2⟩
